import Mathlib

/-!
Verification development for the poker decision core (goat.py / bot.py).

The Python source is shallowly embedded: Python ints are modelled as Lean Int,
Python floats as exact rationals (ℚ), Python lists as Lean lists.  Fallible
Python operations that would raise are modelled totally with an explicit
default and a comment naming the Python behaviour at that spot.
-/

namespace Goat

/-- HandRank enumeration from goat.py (class HandRank). -/
inductive HandRank
  | HIGH_CARD
  | PAIR
  | TWO_PAIR
  | THREE_OF_A_KIND
  | STRAIGHT
  | FLUSH
  | FULL_HOUSE
  | FOUR_OF_A_KIND
  | STRAIGHT_FLUSH
deriving DecidableEq

/-- Numeric value of each HandRank member (the Enum values 0..8). -/
def HandRank.value : HandRank → Nat
  | .HIGH_CARD => 0
  | .PAIR => 1
  | .TWO_PAIR => 2
  | .THREE_OF_A_KIND => 3
  | .STRAIGHT => 4
  | .FLUSH => 5
  | .FULL_HOUSE => 6
  | .FOUR_OF_A_KIND => 7
  | .STRAIGHT_FLUSH => 8

/-- HandCategory enumeration from goat.py (class HandCategory). -/
inductive HandCategory
  | MONSTER
  | STRONG_MADE
  | MEDIUM_MADE
  | WEAK_MADE
  | STRONG_DRAW
  | WEAK_DRAW
  | AIR
deriving DecidableEq

/-- Numeric value of each HandCategory member; WEAK_DRAW carries the
half-integer value 0.5, so the value type is ℚ. -/
def HandCategory.value : HandCategory → ℚ
  | .MONSTER => 5
  | .STRONG_MADE => 4
  | .MEDIUM_MADE => 3
  | .WEAK_MADE => 2
  | .STRONG_DRAW => 1
  | .WEAK_DRAW => 1/2
  | .AIR => 0

/-- PokerAction wire enumeration (type.poker_action, consumed by goat.py). -/
inductive PokerAction
  | FOLD
  | CHECK
  | CALL
  | RAISE
deriving DecidableEq

/-- Card from goat.py: an integer rank and a suit string (the last character
of the parsed card string, kept as a 1-character string, or empty). -/
structure Card where
  rank : Int
  suit : String
deriving DecidableEq

/-- Value of a single decimal digit character, none otherwise. -/
def digitVal? (c : Char) : Option Nat :=
  if c.isDigit then some (c.toNat - 48) else none

/-- Decimal value of a nonempty digit string; none when empty or when any
character is not a digit. -/
def digitsVal? : List Char → Option Nat
  | [] => none
  | cs =>
      cs.foldl
        (fun acc c =>
          match acc, digitVal? c with
          | some n, some d => some (n * 10 + d)
          | _, _ => none)
        (some 0)

/-- Models the Python builtin int() applied to a string: an optional sign
followed by decimal digits.  (Python additionally strips surrounding
whitespace and accepts digit-group underscores; no input in this code base
uses those forms.)  Returns none where Python raises ValueError. -/
def pyIntOfString? (s : String) : Option Int :=
  match s.data with
  | '-' :: cs => (digitsVal? cs).map (fun n => -(n : Int))
  | '+' :: cs => (digitsVal? cs).map (fun n => (n : Int))
  | cs => (digitsVal? cs).map (fun n => (n : Int))

/-- The rank_map dictionary of Card.__init__: letters T J Q K A map to 10..14. -/
def rankMapLookup (s : String) : Option Int :=
  if s = "T" then some 10
  else if s = "J" then some 11
  else if s = "Q" then some 12
  else if s = "K" then some 13
  else if s = "A" then some 14
  else none

/-- Card.__init__ of goat.py: an empty string yields the sentinel card
(rank 0, empty suit); otherwise the last character is the suit and the
remaining prefix is looked up in rank_map or parsed as an int, with a
failed parse yielding the sentinel rank 0. -/
def Card.ofString (s : String) : Card :=
  if s = "" then { rank := 0, suit := "" }
  else
    let rank_str := s.dropRight 1
    let suit := s.takeRight 1
    match rankMapLookup rank_str with
    | some r => { rank := r, suit := suit }
    | none =>
        match pyIntOfString? rank_str with
        | some r => { rank := r, suit := suit }
        | none => { rank := 0, suit := suit }

/-- The reverse rank map of _get_hand_string / __repr__: 10..14 print as
letters, all other ranks via str(). -/
def rankStrOf (r : Int) : String :=
  if r = 10 then "T"
  else if r = 11 then "J"
  else if r = 12 then "Q"
  else if r = 13 then "K"
  else if r = 14 then "A"
  else toString r

/-- Python sorted(cards, key=rank, reverse=True): cards in descending rank
order. -/
def sortCardsDesc (l : List Card) : List Card :=
  List.insertionSort (fun a b => a.rank ≥ b.rank) l

instance : IsTotal Card (fun a b => a.rank ≥ b.rank) :=
  ⟨fun a b => le_total b.rank a.rank⟩

instance : IsTrans Card (fun a b => a.rank ≥ b.rank) :=
  ⟨fun _ _ _ h1 h2 => le_trans h2 h1⟩

/-- Shorthand constructor for concrete cards in statements. -/
def mkCard (r : Int) (s : String) : Card :=
  { rank := r, suit := s }

/-- Python sorted(ranks, reverse=True) on integer rank lists. -/
def sortIntDesc (l : List Int) : List Int :=
  List.insertionSort (· ≥ ·) l

/-- Python sorted(ranks) ascending on integer rank lists. -/
def sortIntAsc (l : List Int) : List Int :=
  List.insertionSort (· ≤ ·) l

/-- Python sorted(counts, reverse=True) on multiplicity lists. -/
def sortNatDesc (l : List Nat) : List Nat :=
  List.insertionSort (· ≥ ·) l

/-- Multiset of Counter(ranks).values(): one multiplicity per distinct
element.  The iteration order of the Python Counter is not preserved by
dedup, but every use below either sorts this list or only tests
membership, so the order is immaterial. -/
def countValues (ranks : List Int) : List Nat :=
  ranks.dedup.map (fun r => ranks.count r)

/-- Maximum multiplicity among the suits, Counter(suits).most_common(1)[0][1].
Python raises IndexError on an empty list; the model returns 0 there
(unreachable from the callers, which always pass the two hole cards). -/
def maxCount (l : List String) : Nat :=
  (l.dedup.map (fun s => l.count s)).foldr max 0

/-- Python max(list, default=d) over integers. -/
def pyMaxD (l : List Int) (d : Int) : Int :=
  match l with
  | [] => d
  | a :: t => t.foldl max a

/-- Does some window of 4 consecutive entries u[i], u[i+3] of the list
satisfy f u[i] u[i+3]?  Mirrors the Python loops over range(len(u)-3). -/
def anyWindow4 (f : Int → Int → Bool) : List Int → Bool
  | a :: b :: c :: d :: t => f a d || anyWindow4 f (b :: c :: d :: t)
  | _ => false

/-- Does some window of 5 consecutive entries u[i], u[i+4] of the list
satisfy f u[i] u[i+4]?  Mirrors the Python loop over range(len(u)-4). -/
def anyWindow5 (f : Int → Int → Bool) : List Int → Bool
  | a :: b :: c :: d :: e :: t => f a e || anyWindow5 f (b :: c :: d :: e :: t)
  | _ => false

/-- Python set equality set(xs) == set(ys) for integer lists. -/
def listSetEq (xs ys : List Int) : Bool :=
  xs.all (fun x => ys.contains x) && ys.all (fun y => xs.contains y)

/-- Sort key relation of main_ranks: descending by (count, rank).  The keys
are distinct across distinct ranks, so the sorted list is unique and the
stability of Python sorted is immaterial. -/
def mainRel (ranks : List Int) (a b : Int) : Prop :=
  ranks.count b < ranks.count a ∨ (ranks.count a = ranks.count b ∧ b ≤ a)

instance (ranks : List Int) : DecidableRel (mainRel ranks) := fun a b => by
  unfold mainRel; infer_instance

instance (ranks : List Int) : IsTotal Int (mainRel ranks) :=
  ⟨fun a b => by
    unfold mainRel
    rcases lt_trichotomy (ranks.count a) (ranks.count b) with h | h | h
    · exact Or.inr (Or.inl h)
    · rcases le_total b a with hba | hab
      · exact Or.inl (Or.inr ⟨h, hba⟩)
      · exact Or.inr (Or.inr ⟨h.symm, hab⟩)
    · exact Or.inl (Or.inl h)⟩

instance (ranks : List Int) : IsTrans Int (mainRel ranks) :=
  ⟨fun a b c hab hbc => by
    unfold mainRel at *
    rcases hab with h1 | ⟨h1, h1b⟩
    · rcases hbc with h2 | ⟨h2, _⟩
      · exact Or.inl (h2.trans h1)
      · exact Or.inl (h2 ▸ h1)
    · rcases hbc with h2 | ⟨h2, h2b⟩
      · exact Or.inl (h1 ▸ h2)
      · exact Or.inr ⟨h1.trans h2, h2b.trans h1b⟩⟩

/-- The wheel rank set of the ace-low straight check. -/
def wheelRanks : List Int := [14, 2, 3, 4, 5]

/-- Core of HandEvaluator._evaluate_five_card_hand, as a function of the
descending-sorted rank list and the all-one-suit flag (the only two facts
about the cards that the Python body reads).  counts[0] is modelled with
headD 0: Python would raise IndexError on an empty hand, which no caller
produces. -/
def evalFiveCore (ranks0 : List Int) (is_flush : Bool) : HandRank × List Int :=
  let unique_ranks := sortIntAsc ranks0.dedup
  let wheel := listSetEq ranks0 wheelRanks
  let is_straight :=
    wheel || (5 ≤ unique_ranks.length && anyWindow5 (fun a e => e - a == 4) unique_ranks)
  let ranks := if wheel then [5, 4, 3, 2, 1] else ranks0
  if is_straight && is_flush then (HandRank.STRAIGHT_FLUSH, ranks)
  else
    let counts := sortNatDesc (countValues ranks0)
    let main_ranks := List.insertionSort (mainRel ranks0) ranks0.dedup
    if counts.headD 0 = 4 then (HandRank.FOUR_OF_A_KIND, main_ranks)
    else if counts = [3, 2] then (HandRank.FULL_HOUSE, main_ranks)
    else if is_flush then (HandRank.FLUSH, ranks)
    else if is_straight then (HandRank.STRAIGHT, ranks)
    else if counts.headD 0 = 3 then (HandRank.THREE_OF_A_KIND, main_ranks)
    else if counts = [2, 2, 1] then (HandRank.TWO_PAIR, main_ranks)
    else if counts.headD 0 = 2 then (HandRank.PAIR, main_ranks)
    else (HandRank.HIGH_CARD, ranks)

/-- HandEvaluator._evaluate_five_card_hand of goat.py. -/
def evalFive (hand : List Card) : HandRank × List Int :=
  evalFiveCore (sortIntDesc (hand.map Card.rank))
    ((hand.map Card.suit).dedup.length == 1)

/-- HandEvaluator._evaluate_preliminary of goat.py: restricted evaluation
used when fewer than 5 cards are available. -/
def evaluatePreliminary (cards : List Card) : HandRank × List Int :=
  let ranks := cards.map Card.rank
  if 4 ∈ countValues ranks then (HandRank.FOUR_OF_A_KIND, sortIntDesc ranks)
  else if 3 ∈ countValues ranks then (HandRank.THREE_OF_A_KIND, sortIntDesc ranks)
  else if 1 ≤ (countValues ranks).count 2 then (HandRank.PAIR, sortIntDesc ranks)
  else (HandRank.HIGH_CARD, sortIntDesc ranks)

/-- The kicker-comparison loop of HandEvaluator.evaluate: the candidate
kickers replace the current best exactly when they are lexicographically
greater over the scanned prefix.  (Python would raise IndexError if the
current best list were strictly shorter with an equal prefix; that spot is
unreachable, because kicker lists of hands in the same rank class always
have the same length, and the model returns false there.) -/
def lexGt : List Int → List Int → Bool
  | a :: as, b :: bs => a > b || (a == b && lexGt as bs)
  | _, _ => false

/-- One step of the best-combination fold in HandEvaluator.evaluate.  When
the rank values are equal the Python code keeps best_rank and overwrites
best_kickers, which is reproduced literally here. -/
def stepBest (best : HandRank × List Int) (combo : List Card) : HandRank × List Int :=
  let rk := evalFive combo
  if rk.1.value > best.1.value then rk
  else if rk.1.value == best.1.value && lexGt rk.2 best.2 then (best.1, rk.2)
  else best

/-- HandEvaluator.evaluate of goat.py: with at least 5 cards, fold the
five-card scorer over every 5-card combination of the descending-sorted
cards, starting from (HIGH_CARD, top five ranks).  sublistsLen enumerates
the same 5-card combinations as itertools.combinations, possibly in a
different order; the fold keeps a running maximum under a comparison that
is total on the scores that occur, so the order does not affect the
result. -/
def evaluate (hand community : List Card) : HandRank × List Int :=
  let all_cards := sortCardsDesc (hand ++ community)
  if all_cards.length < 5 then evaluatePreliminary all_cards
  else
    (List.sublistsLen 5 all_cards).foldl stepBest
      (HandRank.HIGH_CARD, (all_cards.map Card.rank).take 5)

/-- The comparison order of the specification: HandRank ordinal first, then
kickers lexicographically most-significant first (greater-or-equal form). -/
def scoreGe (a b : HandRank × List Int) : Bool :=
  b.1.value < a.1.value || (a.1.value == b.1.value && (a.2 == b.2 || lexGt a.2 b.2))

/-- Length of the kicker list produced by the five-card scorer for each
rank class on a 5-card hand (a proof device, not part of the source). -/
def kickerLen : HandRank → Nat
  | .HIGH_CARD => 5
  | .PAIR => 4
  | .TWO_PAIR => 3
  | .THREE_OF_A_KIND => 3
  | .STRAIGHT => 5
  | .FLUSH => 5
  | .FULL_HOUSE => 2
  | .FOUR_OF_A_KIND => 2
  | .STRAIGHT_FLUSH => 5

/-- RoundStateClient fields read by the decision core (type.round_state). -/
structure RoundStateClient where
  round : String
  current_bet : Int
  player_bets : List (String × Int)
  pot : Int
  min_raise : Int
  max_raise : Int
  community_cards : List String
  player_actions : List (String × String)
  big_blind_player_id : Int

/-- Session state of a GTOPlayer instance read by get_action. -/
structure GTOPlayer where
  id : Int
  hand : List Card
  is_preflop_aggressor : Bool
  all_player_ids : List Int

/-- Shorthand for stating hole-card claims: a player holding the two given
hole cards, with the other session fields inert. -/
def holdingPlayer (c1 c2 : Card) : GTOPlayer :=
  { id := 0, hand := [c1, c2], is_preflop_aggressor := false, all_player_ids := [] }

/-- Python dict .get(key, 0) over the posted-bet mapping. -/
def lookupBetD (m : List (String × Int)) (k : String) : Int :=
  match m.find? (fun kv => kv.1 == k) with
  | some kv => kv.2
  | none => 0

/-- The amount-to-call computation at the top of get_action. -/
def amountToCall (p : GTOPlayer) (rs : RoundStateClient) : Int :=
  rs.current_bet - lookupBetD rs.player_bets (toString p.id)

/-- Python int() truncation (toward zero) of an exact rational: T-division
of the numerator by the denominator (the denominator is positive, so this
rounds toward zero exactly as the Python builtin does). -/
def truncQ (q : ℚ) : Int :=
  q.num.tdiv (q.den : Int)

/-- GTOPlayer._make_bet: clamp the amount into [min_raise, max_raise]. -/
def makeBet (rs : RoundStateClient) (amount : Int) : PokerAction × Int :=
  (PokerAction.RAISE, max rs.min_raise (min amount rs.max_raise))

/-- GTOPlayer._make_raise: clamp the amount into [min_raise, max_raise]. -/
def makeRaise (rs : RoundStateClient) (amount : Int) : PokerAction × Int :=
  (PokerAction.RAISE, max rs.min_raise (min amount rs.max_raise))

/-- GTOPlayer._get_hand_string: canonical hole-hand shorthand, higher rank
first, suffix s or o, suffix omitted when the two rank strings coincide.
Python unpacks exactly two cards and raises otherwise; the model returns ""
for other lengths (unreachable: the hand always holds the two hole cards). -/
def getHandString (p : GTOPlayer) : String :=
  match sortCardsDesc p.hand with
  | [c1, c2] =>
      let s := if c1.suit = c2.suit then "s" else "o"
      let r1 := rankStrOf c1.rank
      let r2 := rankStrOf c2.rank
      if r1 = r2 then r1 ++ r2 else r1 ++ r2 ++ s
  | _ => ""

/-- Character at index i of a token string (Python r[i]; the model defaults
to a blank where Python would raise IndexError, which no configured token
triggers). -/
def strChar (s : String) (i : Nat) : Char :=
  s.data.getD i ' '

/-- Is the first character list a prefix of the second? -/
def listPrefixOf : List Char → List Char → Bool
  | [], _ => true
  | _ :: _, [] => false
  | a :: as, b :: bs => a == b && listPrefixOf as bs

/-- Python str.startswith, stated on the character lists so that it
reduces definitionally. -/
def pyStartsWith (s pre : String) : Bool :=
  listPrefixOf pre.data s.data

/-- Python str.endswith, stated on the character lists so that it reduces
definitionally. -/
def pyEndsWith (s suf : String) : Bool :=
  listPrefixOf suf.data.reverse s.data.reverse

/-- One iteration of the GTOPlayer._is_in_range loop: does the token r
match the hand?  c1 and c2 are the hole cards in storage order (the Python
code unpacks self.hand unsorted), hand_str is the canonical shorthand. -/
def tokenMatches (hand_str : String) (c1 c2 : Card) (r : String) : Bool :=
  if r.length == 2 then pyStartsWith hand_str r
  else if pyEndsWith r "+" then
    let base_rank := (Card.ofString (String.mk [strChar r 1] ++ "s")).rank
    if r.length == 3 && strChar r 0 == strChar r 1 then
      c1.rank == c2.rank && c1.rank ≥ base_rank
    else if pyEndsWith r "s+" && pyEndsWith hand_str "s" then
      strChar hand_str 0 == strChar r 0 && c2.rank ≥ base_rank
    else if pyEndsWith r "o+" && pyEndsWith hand_str "o" then
      strChar hand_str 0 == strChar r 0 && c2.rank ≥ base_rank
    else false
  else r == hand_str

/-- GTOPlayer._is_in_range: first-match-wins over the token list, false
when no token matches.  Python unpacks exactly two hole cards; the model
returns false for other hand lengths (unreachable in the bot). -/
def isInRange (p : GTOPlayer) (range_list : List String) : Bool :=
  match p.hand with
  | [c1, c2] => range_list.any (tokenMatches (getHandString p) c1 c2)
  | _ => false

/-- One position entry of the preflop_ranges table. -/
structure RangeSet where
  rfi : List String
  threebet : List String
  callRange : List String

/-- The preflop_ranges configuration of GTOPlayer.__init__.  An unknown
position key would raise KeyError in Python; the model returns empty lists
there (unreachable: _get_position only produces the four keys below). -/
def preflopRanges (position : String) : RangeSet :=
  if position = "EARLY" then
    { rfi := ["77+", "ATs+", "KJs+", "QJs", "JTs", "T9s", "AJo+", "KQo"]
      threebet := ["TT+", "AQs+", "AKo"]
      callRange := ["22-99", "AJs", "ATs", "KQs"] }
  else if position = "MIDDLE" then
    { rfi := ["55+", "A8s+", "K9s+", "QTs+", "JTs", "T9s", "A9o+", "KTo+", "QJo"]
      threebet := ["99+", "ATs+", "KJs+", "AQo+"]
      callRange := ["22-88", "A9s", "KTs", "QTs"] }
  else if position = "LATE" then
    { rfi := ["22+", "A2s+", "K7s+", "Q8s+", "J8s+", "T8s+", "A2o+", "K9o+", "QTo+", "JTo"]
      threebet := ["88+", "A8s+", "K9s+", "AQo+", "KQo"]
      callRange := ["22-77", "A2s-A7s", "JTs", "QTs"] }
  else if position = "BLINDS" then
    { rfi := ["33+", "A2s+", "K8s+", "Q9s+", "J9s+", "A7o+", "KTo+"]
      threebet := ["99+", "AJs+", "AQo+"]
      callRange := ["22-88", "A2s-ATs", "KJs+", "QTs+"] }
  else { rfi := [], threebet := [], callRange := [] }

/-- GTOPlayer._get_position of goat.py.  list.index is modelled with
findIdx?; the Python try/except ValueError fallback is the none branch. -/
def getPosition (p : GTOPlayer) (rs : RoundStateClient) : String :=
  let player_count : Int := p.all_player_ids.length
  if player_count ≤ 3 then "LATE"
  else
    match p.all_player_ids.findIdx? (fun x => x == p.id),
        p.all_player_ids.findIdx? (fun x => x == rs.big_blind_player_id) with
    | some my_index, some bb_index =>
        let relative_pos : Int := ((my_index : Int) - (bb_index : Int) + player_count) % player_count
        if relative_pos = player_count - 1 ∨ relative_pos = player_count - 2 then "BLINDS"
        else if relative_pos = player_count - 3 then "LATE"
        else if relative_pos = player_count - 4 then "LATE"
        else if relative_pos = player_count - 5 then "MIDDLE"
        else "EARLY"
    | _, _ => "LATE"

/-- GTOPlayer._categorize_hand of goat.py.  The pair_rank selection
[r for r, c in Counter(...).items() if c == 2][0] picks the first rank in
first-occurrence order whose multiplicity is exactly 2, modelled with
find?; Python raises IndexError when no such rank exists (unreachable when
the rank argument comes from the evaluator), modelled by the default 0.
hand[0] and hand[1] are modelled with getD (Python raises on shorter
hands, which the bot never produces). -/
def categorizeHand (rank : HandRank) (hand community : List Card) : HandCategory :=
  if HandRank.FULL_HOUSE.value ≤ rank.value then HandCategory.MONSTER
  else if rank = HandRank.THREE_OF_A_KIND
      ∧ (hand.getD 0 { rank := 0, suit := "" }).rank = (hand.getD 1 { rank := 0, suit := "" }).rank then
    HandCategory.MONSTER
  else if HandRank.TWO_PAIR.value ≤ rank.value then HandCategory.STRONG_MADE
  else
    let combined := hand ++ community
    if combined.length < 5 ∧
        (maxCount (combined.map Card.suit) = 4 ∨
          (let unique_ranks := sortIntAsc (combined.map Card.rank).dedup
           4 ≤ unique_ranks.length ∧ anyWindow4 (fun a d => d - a ≤ 4) unique_ranks = true)) then
      HandCategory.STRONG_DRAW
    else if rank = HandRank.PAIR then
      let ranks := combined.map Card.rank
      let pair_rank := (ranks.find? (fun r => ranks.count r == 2)).getD 0
      if (pair_rank = (hand.getD 0 { rank := 0, suit := "" }).rank
            ∨ pair_rank = (hand.getD 1 { rank := 0, suit := "" }).rank)
          ∧ pair_rank ≥ pyMaxD (community.map Card.rank) 0 then
        HandCategory.STRONG_MADE
      else if pair_rank = (hand.getD 0 { rank := 0, suit := "" }).rank
          ∨ pair_rank = (hand.getD 1 { rank := 0, suit := "" }).rank then
        HandCategory.MEDIUM_MADE
      else HandCategory.WEAK_MADE
    else HandCategory.AIR

/-- GTOPlayer._estimate_draw_equity of goat.py.  Python floats are
modelled as exact rationals. -/
def estimateDrawEquity (p : GTOPlayer) (community_cards : List Card) : ℚ :=
  let combined := p.hand ++ community_cards
  let outs0 : Nat := if maxCount (combined.map Card.suit) = 4 then 9 else 0
  let unique_ranks := sortIntAsc (combined.map Card.rank).dedup
  let outs : Nat :=
    if 4 ≤ unique_ranks.length then
      if anyWindow4 (fun a d => d - a == 3) unique_ranks then max outs0 8
      else if anyWindow4 (fun a d => d - a == 4) unique_ranks then max outs0 4
      else outs0
    else outs0
  let multiplier : Nat := if community_cards.length = 3 then 4 else 2
  ((outs * multiplier : Nat) : ℚ) / 100

/-- GTOPlayer._get_preflop_action of goat.py.  The mutation of
is_preflop_aggressor only affects later calls and is not part of the
returned action, so it is omitted from this pure model.
round_state.min_raise * 2.5 is a Python float, truncated by int() inside
_make_raise. -/
def getPreflopAction (p : GTOPlayer) (rs : RoundStateClient) (atc : Int) : PokerAction × Int :=
  let position := getPosition p rs
  let ranges := preflopRanges position
  let has_raise := rs.player_actions.any (fun kv => kv.2 == "Raise")
  if has_raise then
    if isInRange p ranges.threebet then makeRaise rs (rs.current_bet * 3)
    else if isInRange p ranges.callRange then (PokerAction.CALL, atc)
    else (PokerAction.FOLD, 0)
  else
    if isInRange p ranges.rfi then makeRaise rs (truncQ ((rs.min_raise : ℚ) * (5 / 2)))
    else if atc = 0 then (PokerAction.CHECK, 0)
    else (PokerAction.FOLD, 0)

/-- GTOPlayer.get_action of goat.py.  rand_val models the single
random.random() draw of the bluff branch; Python float arithmetic
(0.66, 0.4, 0.5, 1.5 and the pot-odds division) is modelled with exact
rationals, truncated by int() where the source truncates. -/
def getAction (p : GTOPlayer) (rs : RoundStateClient) (rand_val : ℚ) : PokerAction × Int :=
  let atc := amountToCall p rs
  if rs.round = "Preflop" then getPreflopAction p rs atc
  else
    let community_cards := rs.community_cards.map Card.ofString
    let hand_rank := (evaluate p.hand community_cards).1
    let hand_category := categorizeHand hand_rank p.hand community_cards
    let pot_size := rs.pot
    if atc = 0 then
      if p.is_preflop_aggressor then
        if HandCategory.STRONG_MADE.value ≤ hand_category.value
            ∨ hand_category.value = HandCategory.STRONG_DRAW.value then
          makeBet rs (truncQ ((pot_size : ℚ) * (33 / 50)))
        else if hand_category.value = HandCategory.AIR.value ∧ rand_val < 2 / 5 then
          makeBet rs (truncQ ((pot_size : ℚ) * (2 / 5)))
        else (PokerAction.CHECK, 0)
      else
        if HandCategory.MEDIUM_MADE.value ≤ hand_category.value then
          makeBet rs (truncQ ((pot_size : ℚ) * (1 / 2)))
        else (PokerAction.CHECK, 0)
    else
      let pot_odds : ℚ :=
        if 0 < pot_size + atc then (atc : ℚ) / ((pot_size : ℚ) + (atc : ℚ)) else 0
      if hand_category.value = HandCategory.MONSTER.value then
        makeRaise rs (truncQ ((pot_size : ℚ) * (3 / 2) + (atc : ℚ)))
      else if HandCategory.STRONG_MADE.value ≤ hand_category.value then
        (PokerAction.CALL, atc)
      else if hand_category.value = HandCategory.STRONG_DRAW.value
          ∧ estimateDrawEquity p community_cards > pot_odds then
        (PokerAction.CALL, atc)
      else if HandCategory.WEAK_MADE.value ≤ hand_category.value
          ∧ (atc : ℚ) ≤ (pot_size : ℚ) * (1 / 2) then
        (PokerAction.CALL, atc)
      else (PokerAction.FOLD, 0)

/-- Modelled from the claim wording of C4: post-flop with a positive amount
to call, raise toward 1.5 times pot plus the amount to call on a MONSTER,
call on at least STRONG_MADE, call on a STRONG_DRAW whose estimated equity
strictly exceeds the pot odds (0 when pot plus call is 0), call on at
least WEAK_MADE when the call is at most half the pot, otherwise fold 0;
raise amounts clamped into the round-state bounds. -/
def specFacingBet (p : GTOPlayer) (rs : RoundStateClient) : PokerAction × Int :=
  let atc := amountToCall p rs
  let community := rs.community_cards.map Card.ofString
  let cat := categorizeHand (evaluate p.hand community).1 p.hand community
  let pot_odds : ℚ :=
    if (rs.pot : ℚ) + (atc : ℚ) = 0 then 0 else (atc : ℚ) / ((rs.pot : ℚ) + (atc : ℚ))
  if cat = HandCategory.MONSTER then
    (PokerAction.RAISE,
      max rs.min_raise (min (truncQ ((3 / 2 : ℚ) * (rs.pot : ℚ) + (atc : ℚ))) rs.max_raise))
  else if HandCategory.STRONG_MADE.value ≤ cat.value then (PokerAction.CALL, atc)
  else if cat = HandCategory.STRONG_DRAW ∧ pot_odds < estimateDrawEquity p community then
    (PokerAction.CALL, atc)
  else if HandCategory.WEAK_MADE.value ≤ cat.value ∧ (atc : ℚ) ≤ (1 / 2 : ℚ) * (rs.pot : ℚ) then
    (PokerAction.CALL, atc)
  else (PokerAction.FOLD, 0)

/-- Modelled from the claim wording of C6 as amended: with relative
position (agent index minus big-blind index) mod player count, BLINDS at
the last two offsets, LATE at the two before, MIDDLE at player_count - 5,
EARLY otherwise; LATE when either id is absent; and, the amendment forced
by the counterexample, LATE whenever the table has at most 3 players. -/
def specPosition (p : GTOPlayer) (rs : RoundStateClient) : String :=
  let n : Int := p.all_player_ids.length
  if n ≤ 3 then "LATE"
  else if p.id ∈ p.all_player_ids ∧ rs.big_blind_player_id ∈ p.all_player_ids then
    let mi : Int := p.all_player_ids.findIdx (fun x => x == p.id)
    let bi : Int := p.all_player_ids.findIdx (fun x => x == rs.big_blind_player_id)
    let rel := (mi - bi) % n
    if rel = n - 1 ∨ rel = n - 2 then "BLINDS"
    else if rel = n - 3 ∨ rel = n - 4 then "LATE"
    else if rel = n - 5 then "MIDDLE"
    else "EARLY"
  else "LATE"

/-- Modelled from the claim wording of C7: four cards of one suit exist
among the combined cards (a suit whose multiplicity is exactly 4). -/
def specFourFlush (cards : List Card) : Bool :=
  cards.any (fun c => (cards.map Card.suit).count c.suit == 4)

/-- Modelled from the claim wording of C7: some 4-rank window over the
unique ranks (entries i and i+3 of the ascending-sorted distinct ranks)
has span exactly d. -/
def specWindowSpan (cards : List Card) (d : Int) : Bool :=
  let u := sortIntAsc (cards.map Card.rank).dedup
  (u.zip (u.drop 3)).any (fun pr => pr.2 - pr.1 == d)

/-- Modelled from the claim wording of C7: outs is 9 if a four-flush
exists, raised to max(outs, 8) on a span-3 window, else raised to
max(outs, 4) on a span-4 window. -/
def specOuts (cards : List Card) : Nat :=
  let base : Nat := if specFourFlush cards then 9 else 0
  if specWindowSpan cards 3 then max base 8
  else if specWindowSpan cards 4 then max base 4
  else base

/-- Modelled from the claim wording of C7: multiplier 4 with exactly 3
known community cards, 2 with 4 known (unspecified otherwise). -/
def specMultiplier (k : Nat) : Nat :=
  if k = 3 then 4 else if k = 4 then 2 else 0

/-- Modelled from the claim wording of C7: outs times multiplier over 100. -/
def specEquity (p : GTOPlayer) (community : List Card) : ℚ :=
  ((specOuts (p.hand ++ community) * specMultiplier community.length : Nat) : ℚ) / 100

/-- The dash-form (span) tokens appearing in the configured pre-flop call
ranges of preflop_ranges. -/
def configDashTokens : List String :=
  ["22-99", "22-88", "22-77", "A2s-A7s", "A2s-ATs"]

/-! ### Helper lemmas -/

theorem sortIntDesc_perm (l : List Int) : (sortIntDesc l).Perm l :=
  List.perm_insertionSort _ l

theorem sortIntDesc_sorted (l : List Int) : (sortIntDesc l).Sorted (· ≥ ·) :=
  List.sorted_insertionSort _ l

theorem sortIntDesc_eq_of_perm {l₁ l₂ : List Int} (h : l₁.Perm l₂) :
    sortIntDesc l₁ = sortIntDesc l₂ :=
  List.eq_of_perm_of_sorted
    ((sortIntDesc_perm l₁).trans (h.trans (sortIntDesc_perm l₂).symm))
    (sortIntDesc_sorted l₁) (sortIntDesc_sorted l₂)

theorem sortIntDesc_eq_self {l : List Int} (h : l.Sorted (· ≥ ·)) : sortIntDesc l = l :=
  List.eq_of_perm_of_sorted (sortIntDesc_perm l) (sortIntDesc_sorted l) h

theorem mem_countValues_iff {L : List Int} {n : Nat} :
    n ∈ countValues L ↔ ∃ r, r ∈ L ∧ L.count r = n := by
  unfold countValues
  simp [List.mem_map, List.mem_dedup]

/-! ### C2: the wheel -/

/-- C2: every 5-card hand whose rank set is the wheel evaluates to
STRAIGHT with kickers [5,4,3,2,1], or STRAIGHT_FLUSH with the same kickers
when all suits agree, and the result lies strictly below a six-high
straight of the same rank class under the kicker order. -/
theorem C2_wheel_eval (hand : List Card)
    (hr : (hand.map Card.rank).Perm wheelRanks) :
    evalFive hand =
      ((if (hand.map Card.suit).dedup.length == 1 then HandRank.STRAIGHT_FLUSH
        else HandRank.STRAIGHT), [5, 4, 3, 2, 1]) ∧
    lexGt [6, 5, 4, 3, 2] (evalFive hand).2 = true := by
  have h2 : List.Perm wheelRanks [14, 5, 4, 3, 2] := by decide
  have hranks : sortIntDesc (hand.map Card.rank) = [14, 5, 4, 3, 2] := by
    rw [sortIntDesc_eq_of_perm (hr.trans h2)]
    decide
  have hmain : evalFive hand =
      ((if (hand.map Card.suit).dedup.length == 1 then HandRank.STRAIGHT_FLUSH
        else HandRank.STRAIGHT), [5, 4, 3, 2, 1]) := by
    unfold evalFive
    rw [hranks]
    cases hflag : ((hand.map Card.suit).dedup.length == 1) with
    | true => decide
    | false => decide
  refine ⟨hmain, ?_⟩
  rw [hmain]
  cases ((hand.map Card.suit).dedup.length == 1) <;> decide

/-- Witness for C2 at the concrete hand Ah 2h 3h 4c 5h. -/
theorem C2_wheel_eval_witness :
    (([mkCard 14 "h", mkCard 2 "h", mkCard 3 "h", mkCard 4 "c", mkCard 5 "h"].map
        Card.rank).Perm wheelRanks) ∧
    evalFive [mkCard 14 "h", mkCard 2 "h", mkCard 3 "h", mkCard 4 "c", mkCard 5 "h"] =
      ((if (([mkCard 14 "h", mkCard 2 "h", mkCard 3 "h", mkCard 4 "c", mkCard 5 "h"].map
            Card.suit).dedup.length == 1)
        then HandRank.STRAIGHT_FLUSH else HandRank.STRAIGHT), [5, 4, 3, 2, 1]) ∧
    lexGt [6, 5, 4, 3, 2]
      (evalFive [mkCard 14 "h", mkCard 2 "h", mkCard 3 "h", mkCard 4 "c", mkCard 5 "h"]).2 = true :=
  ⟨by decide, (C2_wheel_eval _ (by decide)).1, (C2_wheel_eval _ (by decide)).2⟩

/-! ### C9: sentinel cards -/

/-- C9 counterexample: two malformed card strings both parse to sentinel
cards of rank 0, and the evaluator groups the two sentinels as a PAIR of
rank 0, so sentinel cards are not inert in the rank groupings. -/
theorem C9_counterexample :
    (Card.ofString "zz").rank = 0 ∧ (Card.ofString "qq").rank = 0 ∧
    evaluate [Card.ofString "zz", Card.ofString "qq"] [] = (HandRank.PAIR, [0, 0]) := by
  refine ⟨by decide, by decide, by decide⟩

/-- C9 as amended: malformed or empty card strings parse to the sentinel
rank 0 without error; the evaluator's descending rank sort is ordered, so
rank-0 sentinels sort last among valid cards; and a single sentinel added
to a list of positive-rank cards leaves the preliminary rank grouping
unchanged and merely appends a trailing 0 kicker (two or more sentinels,
however, can group with each other, as the counterexample shows). -/
theorem C9_sentinel_amended :
    (Card.ofString "" = { rank := 0, suit := "" }) ∧
    (∀ s : String, s ≠ "" → rankMapLookup (s.dropRight 1) = none →
        pyIntOfString? (s.dropRight 1) = none →
        Card.ofString s = { rank := 0, suit := s.takeRight 1 }) ∧
    (∀ l : List Card, (sortCardsDesc l).Sorted (fun a b => a.rank ≥ b.rank)) ∧
    (∀ (cards : List Card) (c : Card), (∀ d ∈ cards, 0 < d.rank) → c.rank = 0 →
        evaluatePreliminary (cards ++ [c]) =
          ((evaluatePreliminary cards).1, (evaluatePreliminary cards).2 ++ [0])) := by
  refine ⟨rfl, ?_, ?_, ?_⟩
  · intro s hs h1 h2
    simp [Card.ofString, hs, h1, h2]
  · intro l
    exact List.sorted_insertionSort _ l
  · intro cards c hpos hc
    have hmapp : (cards ++ [c]).map Card.rank = cards.map Card.rank ++ [0] := by
      rw [List.map_append]
      simp [hc]
    set ranks := cards.map Card.rank with hrk
    have h0 : (0 : Int) ∉ ranks := by
      intro hmem
      rcases List.mem_map.mp hmem with ⟨d, hd, hdr⟩
      have := hpos d hd
      omega
    have hcnt : ∀ r : Int, r ∈ ranks → (ranks ++ [0]).count r = ranks.count r := by
      intro r hr
      have hrne : r ≠ 0 := fun h => h0 (h ▸ hr)
      rw [List.count_append]
      simp [hrne]
    have hmemCV : ∀ n : Nat, n ≠ 1 →
        ((n ∈ countValues (ranks ++ [0])) ↔ (n ∈ countValues ranks)) := by
      intro n hn
      rw [mem_countValues_iff, mem_countValues_iff]
      constructor
      · rintro ⟨r, hr, hcount⟩
        rcases List.mem_append.mp hr with hr | hr
        · exact ⟨r, hr, by rw [← hcnt r hr]; exact hcount⟩
        · have hr0 : r = 0 := by simpa using hr
          subst hr0
          rw [List.count_append] at hcount
          have hz : ranks.count 0 = 0 := List.count_eq_zero.mpr h0
          rw [hz] at hcount
          simp at hcount
          exact absurd hcount.symm hn
      · rintro ⟨r, hr, hcount⟩
        exact ⟨r, List.mem_append.mpr (Or.inl hr), by rw [hcnt r hr]; exact hcount⟩
    have hkick : sortIntDesc (ranks ++ [0]) = sortIntDesc ranks ++ [0] := by
      apply List.eq_of_perm_of_sorted
        ((sortIntDesc_perm _).trans (((sortIntDesc_perm ranks).symm).append_right [0]))
        (sortIntDesc_sorted _)
      rw [List.Sorted, List.pairwise_append]
      refine ⟨sortIntDesc_sorted ranks, by simp, ?_⟩
      intro x hx y hy
      have hxr : x ∈ ranks := (sortIntDesc_perm ranks).mem_iff.mp hx
      rcases List.mem_map.mp hxr with ⟨d, hd, hdr⟩
      have := hpos d hd
      have hy0 : y = 0 := by simpa using hy
      omega
    have hcv2 : ((1 ≤ (countValues (ranks ++ [0])).count 2) ↔
        (1 ≤ (countValues ranks).count 2)) := by
      have hgen : ∀ m : List Nat, (1 ≤ m.count 2) ↔ 2 ∈ m := by
        intro m
        constructor
        · intro h
          exact List.count_pos_iff.mp (by omega)
        · intro h
          have := List.count_pos_iff.mpr h
          omega
      rw [hgen, hgen]
      exact hmemCV 2 (by omega)
    have e4 : ((4 : Nat) ∈ countValues (ranks ++ [0])) = ((4 : Nat) ∈ countValues ranks) :=
      propext (hmemCV 4 (by omega))
    have e3 : ((3 : Nat) ∈ countValues (ranks ++ [0])) = ((3 : Nat) ∈ countValues ranks) :=
      propext (hmemCV 3 (by omega))
    have e2 : (1 ≤ (countValues (ranks ++ [0])).count 2) =
        (1 ≤ (countValues ranks).count 2) := propext hcv2
    simp only [evaluatePreliminary, hmapp, ← hrk, e4, e3, e2]
    split_ifs <;> simp [hkick]

/-- Witness for C9 as amended, at the string "junk", the cards 9h 5d and
the sentinel parsed from "junk". -/
theorem C9_sentinel_amended_witness :
    (("junk" : String) ≠ "" ∧ rankMapLookup (("junk" : String).dropRight 1) = none ∧
      pyIntOfString? (("junk" : String).dropRight 1) = none ∧
      Card.ofString "junk" = mkCard 0 (("junk" : String).takeRight 1)) ∧
    ((∀ d ∈ [mkCard 9 "h", mkCard 5 "d"], 0 < d.rank) ∧
      evaluatePreliminary ([mkCard 9 "h", mkCard 5 "d"] ++ [Card.ofString "junk"]) =
        ((evaluatePreliminary [mkCard 9 "h", mkCard 5 "d"]).1,
          (evaluatePreliminary [mkCard 9 "h", mkCard 5 "d"]).2 ++ [0])) := by
  refine ⟨⟨by decide, by decide, by decide, ?_⟩, ⟨by decide, ?_⟩⟩
  · exact C9_sentinel_amended.2.1 "junk" (by decide) (by decide) (by decide)
  · exact C9_sentinel_amended.2.2.2 _ (Card.ofString "junk") (by decide) (by decide)

/-! ### C3: no draw categories on a full board -/

/-- C3: with 5 or more combined cards the categorizer never returns
STRONG_DRAW or WEAK_DRAW, and with no made hand (HIGH_CARD) it returns
AIR; with fewer than 5 combined cards and a rank below TWO_PAIR, a
four-of-a-suit holding does categorize as STRONG_DRAW. -/
theorem C3_no_draw_on_full_board (rank : HandRank) (hand community : List Card)
    (h5 : 5 ≤ (hand ++ community).length) :
    (categorizeHand rank hand community ≠ HandCategory.STRONG_DRAW ∧
     categorizeHand rank hand community ≠ HandCategory.WEAK_DRAW) ∧
    (rank = HandRank.HIGH_CARD → categorizeHand rank hand community = HandCategory.AIR) ∧
    (∀ (rk : HandRank) (hd cm : List Card), (hd ++ cm).length < 5 →
        rk.value < HandRank.TWO_PAIR.value →
        maxCount ((hd ++ cm).map Card.suit) = 4 →
        categorizeHand rk hd cm = HandCategory.STRONG_DRAW) := by
  have hlen : ¬ (hand ++ community).length < 5 := by omega
  refine ⟨?_, ?_, ?_⟩
  · simp only [categorizeHand]
    split_ifs with hA hB hC hD hE hF hG <;> simp_all <;> omega
  · intro hrk
    subst hrk
    simp only [categorizeHand]
    split_ifs with hA hB hC hD hE <;> simp_all [HandRank.value] <;> omega
  · intro rk hd cm h1 h2 h3
    simp only [categorizeHand]
    have hA : ¬ HandRank.FULL_HOUSE.value ≤ rk.value := by
      simp only [HandRank.value] at h2 ⊢
      omega
    have hB : ¬ (rk = HandRank.THREE_OF_A_KIND
        ∧ ((hd.getD 0 { rank := 0, suit := "" }).rank
            = (hd.getD 1 { rank := 0, suit := "" }).rank)) := by
      rintro ⟨rfl, -⟩
      simp [HandRank.value] at h2
    have hC : ¬ HandRank.TWO_PAIR.value ≤ rk.value := by omega
    rw [if_neg hA, if_neg hB, if_neg hC, if_pos ⟨h1, Or.inl h3⟩]

/-- Witness for C3: a full five-card board with no made hand, and a
four-flush draw holding on a four-card partial board. -/
theorem C3_no_draw_on_full_board_witness :
    (5 ≤ ([mkCard 9 "h", mkCard 8 "h"] ++
        [mkCard 2 "c", mkCard 7 "d", mkCard 13 "s"]).length) ∧
    (categorizeHand HandRank.HIGH_CARD [mkCard 9 "h", mkCard 8 "h"]
        [mkCard 2 "c", mkCard 7 "d", mkCard 13 "s"] = HandCategory.AIR) ∧
    (([mkCard 9 "h", mkCard 8 "h"] ++ [mkCard 2 "h", mkCard 7 "h"]).length < 5 ∧
      categorizeHand HandRank.HIGH_CARD [mkCard 9 "h", mkCard 8 "h"]
        [mkCard 2 "h", mkCard 7 "h"] = HandCategory.STRONG_DRAW) := by
  refine ⟨by decide, ?_, by decide, ?_⟩
  · exact (C3_no_draw_on_full_board HandRank.HIGH_CARD _ _ (by decide)).2.1 rfl
  · exact (C3_no_draw_on_full_board HandRank.HIGH_CARD
      [mkCard 9 "h", mkCard 8 "h"] [mkCard 2 "c", mkCard 7 "d", mkCard 13 "s"]
      (by decide)).2.2 HandRank.HIGH_CARD _ _ (by decide) (by decide) (by decide)

/-! ### C5: the range matcher on 99+ and ATs+ -/

/-- C5: evaluation of the range matcher at the claim's inputs.  The token
99+ matches pockets 99 and KK and not 88; ATs+ matches suited A-T and A-K
in both storage orders and rejects offsuit A-T; but suited A-9, stored
with the ace second, incorrectly matches ATs+, because the matcher
compares the stored-second card (here the ace) against the token's second
rank instead of the lower card of the canonical ordering. -/
theorem C5_range_matcher_eval :
    isInRange (holdingPlayer (mkCard 9 "h") (mkCard 9 "d")) ["99+"] = true ∧
    isInRange (holdingPlayer (mkCard 13 "h") (mkCard 13 "d")) ["99+"] = true ∧
    isInRange (holdingPlayer (mkCard 8 "h") (mkCard 8 "d")) ["99+"] = false ∧
    isInRange (holdingPlayer (mkCard 14 "h") (mkCard 10 "h")) ["ATs+"] = true ∧
    isInRange (holdingPlayer (mkCard 10 "h") (mkCard 14 "h")) ["ATs+"] = true ∧
    isInRange (holdingPlayer (mkCard 14 "h") (mkCard 13 "h")) ["ATs+"] = true ∧
    isInRange (holdingPlayer (mkCard 13 "h") (mkCard 14 "h")) ["ATs+"] = true ∧
    isInRange (holdingPlayer (mkCard 14 "h") (mkCard 10 "d")) ["ATs+"] = false ∧
    isInRange (holdingPlayer (mkCard 10 "d") (mkCard 14 "h")) ["ATs+"] = false ∧
    isInRange (holdingPlayer (mkCard 14 "h") (mkCard 9 "h")) ["ATs+"] = false ∧
    isInRange (holdingPlayer (mkCard 9 "h") (mkCard 14 "h")) ["ATs+"] = true := by
  refine ⟨by decide, by decide, by decide, by decide, by decide, by decide, by decide,
    by decide, by decide, by decide, by decide⟩

/-! ### C6: position computation -/

/-- C6 counterexample: with 3 players [0, 1, 2], agent id 1 and big blind
id 0, the relative position is player_count - 2, so the claim requires
BLINDS, but the code's 3-player shortcut returns LATE. -/
theorem C6_position_counterexample :
    getPosition
        { id := 1, hand := [], is_preflop_aggressor := false, all_player_ids := [0, 1, 2] }
        { round := "Preflop", current_bet := 0, player_bets := [], pot := 0, min_raise := 0,
          max_raise := 0, community_cards := [], player_actions := [], big_blind_player_id := 0 }
      = "LATE" ∧
    ((1 : Int) - 0) % 3 = (3 : Int) - 2 ∧ ("LATE" : String) ≠ "BLINDS" := by
  refine ⟨by decide, by decide, by decide⟩

/-- C6 as amended: the computed position agrees with the claim's
relative-offset table (BLINDS at offsets n-1 and n-2, LATE at n-3 and
n-4, MIDDLE at n-5, EARLY otherwise, LATE when either id is absent),
except that a table of at most 3 players is always LATE. -/
theorem C6_position_amended (p : GTOPlayer) (rs : RoundStateClient) :
    getPosition p rs = specPosition p rs := by
  have hfind : ∀ (a : Int) (l : List Int), a ∈ l →
      l.findIdx? (fun x => x == a) = some (l.findIdx (fun x => x == a)) := by
    intro a l ha
    cases hq : l.findIdx? (fun x => x == a) with
    | none =>
        rw [List.findIdx?_eq_none_iff] at hq
        have := hq a ha
        simp at this
    | some i =>
        rw [List.findIdx_eq_findIdx?, hq]
  have hnone : ∀ (a : Int) (l : List Int), a ∉ l →
      l.findIdx? (fun x => x == a) = none := by
    intro a l ha
    rw [List.findIdx?_eq_none_iff]
    intro x hx
    rw [beq_eq_false_iff_ne]
    intro hxa
    exact ha (hxa ▸ hx)
  simp only [getPosition, specPosition]
  by_cases h3 : (p.all_player_ids.length : Int) ≤ 3
  · rw [if_pos h3, if_pos h3]
  · rw [if_neg h3, if_neg h3]
    by_cases hm : p.id ∈ p.all_player_ids
    · by_cases hb : rs.big_blind_player_id ∈ p.all_player_ids
      · simp only [hfind _ _ hm, hfind _ _ hb]
        rw [if_pos (And.intro hm hb)]
        set n : Int := (p.all_player_ids.length : Int) with hn
        set mi : Int := (p.all_player_ids.findIdx (fun x => x == p.id) : Int) with hmi
        set bi : Int :=
          (p.all_player_ids.findIdx (fun x => x == rs.big_blind_player_id) : Int) with hbi
        have hmod : (mi - bi + n) % n = (mi - bi) % n := by
          rw [show mi - bi + n = mi - bi + n * 1 by ring, Int.add_mul_emod_self_left]
        rw [hmod]
        split_ifs <;> tauto
      · rw [hnone _ _ hb, if_neg (by rintro ⟨-, hbmem⟩; exact hb hbmem)]
        cases p.all_player_ids.findIdx? (fun x => x == p.id) <;> rfl
    · rw [hnone _ _ hm, if_neg (by rintro ⟨hmmem, -⟩; exact hm hmmem)]

/-- Witness for C6 as amended (closed instantiation at a 6-seat table
where the agent sits 3 seats after the big blind). -/
theorem C6_position_amended_witness :
    getPosition
        { id := 3, hand := [], is_preflop_aggressor := false,
          all_player_ids := [0, 1, 2, 3, 4, 5] }
        { round := "Preflop", current_bet := 0, player_bets := [], pot := 0, min_raise := 0,
          max_raise := 0, community_cards := [], player_actions := [], big_blind_player_id := 0 }
      = specPosition
        { id := 3, hand := [], is_preflop_aggressor := false,
          all_player_ids := [0, 1, 2, 3, 4, 5] }
        { round := "Preflop", current_bet := 0, player_bets := [], pot := 0, min_raise := 0,
          max_raise := 0, community_cards := [], player_actions := [], big_blind_player_id := 0 } :=
  C6_position_amended _ _

/-! ### C7: draw-equity estimate -/

theorem anyWindow4_eq_zip (f : Int → Int → Bool) :
    ∀ u : List Int, anyWindow4 f u = ((u.zip (u.drop 3)).any fun pr => f pr.1 pr.2)
  | [] => rfl
  | [_] => rfl
  | [_, _] => rfl
  | [_, _, _] => rfl
  | a :: b :: c :: d :: t => by
      rw [show anyWindow4 f (a :: b :: c :: d :: t)
            = (f a d || anyWindow4 f (b :: c :: d :: t)) from rfl,
        anyWindow4_eq_zip f (b :: c :: d :: t)]
      rfl

theorem le_foldrMax {l : List Nat} {x : Nat} (hx : x ∈ l) : x ≤ l.foldr max 0 := by
  induction l with
  | nil => cases hx
  | cons a t ih =>
      rw [List.foldr_cons]
      rcases List.mem_cons.mp hx with rfl | hx2
      · exact le_max_left _ _
      · exact le_trans (ih hx2) (le_max_right _ _)

theorem foldrMax_mem {l : List Nat} (h : l.foldr max 0 ≠ 0) : l.foldr max 0 ∈ l := by
  induction l with
  | nil => simp at h
  | cons a t ih =>
      rw [List.foldr_cons] at h ⊢
      rcases le_or_lt (t.foldr max 0) a with hle | hlt
      · rw [max_eq_left hle]
        exact List.mem_cons_self a t
      · rw [max_eq_right hlt.le] at h ⊢
        exact List.mem_cons_of_mem a (ih h)

theorem maxCount_attained {l : List String} (h : maxCount l ≠ 0) :
    ∃ s ∈ l, l.count s = maxCount l := by
  unfold maxCount at h ⊢
  have hm := foldrMax_mem h
  rcases List.mem_map.mp hm with ⟨s, hs, hcount⟩
  exact ⟨s, List.mem_dedup.mp hs, hcount⟩

theorem le_maxCount {l : List String} {s : String} (hs : s ∈ l) : l.count s ≤ maxCount l := by
  unfold maxCount
  exact le_foldrMax (List.mem_map_of_mem _ (List.mem_dedup.mpr hs))

theorem count_two_le_length {l : List String} {a b : String} (hab : a ≠ b) :
    l.count a + l.count b ≤ l.length := by
  induction l with
  | nil => simp
  | cons x t ih =>
      simp only [List.count_cons, List.length_cons, beq_iff_eq]
      split_ifs with h1 h2
      · exact absurd (h1.symm.trans h2) hab
      · omega
      · omega
      · omega

theorem specFourFlush_iff {cards : List Card} :
    specFourFlush cards = true ↔
      ∃ s ∈ cards.map Card.suit, (cards.map Card.suit).count s = 4 := by
  unfold specFourFlush
  rw [List.any_eq_true]
  constructor
  · rintro ⟨c, hc, h⟩
    exact ⟨c.suit, List.mem_map_of_mem _ hc, by simpa using h⟩
  · rintro ⟨s, hs, h⟩
    rcases List.mem_map.mp hs with ⟨c, hc, rfl⟩
    exact ⟨c, hc, by simpa using h⟩

theorem maxCount_eq_four_iff {cards : List Card} (hle : cards.length ≤ 6) :
    maxCount (cards.map Card.suit) = 4 ↔ specFourFlush cards = true := by
  rw [specFourFlush_iff]
  set l := cards.map Card.suit with hl
  have hlen : l.length ≤ 6 := by rw [hl, List.length_map]; exact hle
  constructor
  · intro h4
    rcases maxCount_attained (l := l) (by omega) with ⟨s, hs, hc⟩
    exact ⟨s, hs, by omega⟩
  · rintro ⟨s, hs, h4⟩
    have hge : 4 ≤ maxCount l := h4 ▸ le_maxCount hs
    by_contra hne
    have hgt : 5 ≤ maxCount l := by omega
    rcases maxCount_attained (l := l) (by omega) with ⟨t, ht, hct⟩
    have hts : t ≠ s := by
      intro h
      rw [h, h4] at hct
      omega
    have hsum := count_two_le_length (l := l) hts
    omega

/-- C7: the draw-equity estimate equals the claim's outs-times-multiplier
formula on a 3- or 4-card board, and evaluates to 0.36 on the claim's
concrete four-flush scenario. -/
theorem C7_draw_equity (p : GTOPlayer) (community : List Card)
    (hh : p.hand.length = 2)
    (hlen : community.length = 3 ∨ community.length = 4) :
    estimateDrawEquity p community = specEquity p community ∧
    estimateDrawEquity (holdingPlayer (mkCard 7 "h") (mkCard 6 "h"))
        [mkCard 5 "h", mkCard 2 "h", mkCard 9 "c"] = 36 / 100 := by
  constructor
  · have hle6 : (p.hand ++ community).length ≤ 6 := by
      rw [List.length_append, hh]
      rcases hlen with h | h <;> omega
    have hflush := maxCount_eq_four_iff hle6
    have hw3 : anyWindow4 (fun a d => d - a == 3)
        (sortIntAsc ((p.hand ++ community).map Card.rank).dedup)
        = specWindowSpan (p.hand ++ community) 3 := by
      rw [anyWindow4_eq_zip]
      rfl
    have hw4 : anyWindow4 (fun a d => d - a == 4)
        (sortIntAsc ((p.hand ++ community).map Card.rank).dedup)
        = specWindowSpan (p.hand ++ community) 4 := by
      rw [anyWindow4_eq_zip]
      rfl
    have hmult : (if community.length = 3 then (4 : Nat) else 2)
        = specMultiplier community.length := by
      rcases hlen with h | h <;> rw [h] <;> rfl
    simp only [estimateDrawEquity, specEquity, specOuts, hflush, hw3, hw4, hmult]
    by_cases hu : 4 ≤ (sortIntAsc ((p.hand ++ community).map Card.rank).dedup).length
    · rw [if_pos hu]
    · rw [if_neg hu]
      have hz : ∀ d : Int, specWindowSpan (p.hand ++ community) d = false := by
        intro d
        simp only [specWindowSpan]
        rw [List.drop_eq_nil_of_le (by omega), List.zip_nil_right]
        rfl
      rw [hz 3, hz 4]
      simp
  · have hval : estimateDrawEquity (holdingPlayer (mkCard 7 "h") (mkCard 6 "h"))
        [mkCard 5 "h", mkCard 2 "h", mkCard 9 "c"] = ((9 * 4 : Nat) : ℚ) / 100 := rfl
    rw [hval]
    norm_num

/-- Witness for C7 at the claim's scenario (flop board, so the 3-card
disjunct holds). -/
theorem C7_draw_equity_witness :
    ((holdingPlayer (mkCard 7 "h") (mkCard 6 "h")).hand.length = 2 ∧
      (([mkCard 5 "h", mkCard 2 "h", mkCard 9 "c"] : List Card).length = 3 ∨
        ([mkCard 5 "h", mkCard 2 "h", mkCard 9 "c"] : List Card).length = 4)) ∧
    estimateDrawEquity (holdingPlayer (mkCard 7 "h") (mkCard 6 "h"))
        [mkCard 5 "h", mkCard 2 "h", mkCard 9 "c"] =
      specEquity (holdingPlayer (mkCard 7 "h") (mkCard 6 "h"))
        [mkCard 5 "h", mkCard 2 "h", mkCard 9 "c"] :=
  ⟨⟨by decide, Or.inl (by decide)⟩,
    (C7_draw_equity _ _ (by decide) (Or.inl (by decide))).1⟩

/-! ### C10: dash-form range tokens are inert -/

theorem rankStrOf_length {r : Int} (h1 : 2 ≤ r) (h2 : r ≤ 14) : (rankStrOf r).length = 1 := by
  interval_cases r <;> decide

/-- C10: every dash-form token of the configured pre-flop call ranges
matches no 2-card hand; _is_in_range is the disjunction of the per-token
matches, so it is true only when some non-dash token matches, and
filtering the dash entries out of any configured call range leaves the
matcher's verdict unchanged. -/
theorem C10_dash_tokens_inert (p : GTOPlayer) (c1 c2 : Card)
    (hh : p.hand = [c1, c2])
    (hv : ∀ c ∈ p.hand, 2 ≤ c.rank ∧ c.rank ≤ 14) :
    (∀ tok ∈ configDashTokens,
        tokenMatches (getHandString p) c1 c2 tok = false) ∧
    (∀ l : List String, isInRange p l = l.any (tokenMatches (getHandString p) c1 c2)) ∧
    (∀ pos ∈ (["EARLY", "MIDDLE", "LATE", "BLINDS"] : List String),
        isInRange p (preflopRanges pos).callRange =
          isInRange p ((preflopRanges pos).callRange.filter
            (fun t => !(t.data.contains '-')))) := by
  have hts : (getHandString p).length = 2 ∨ (getHandString p).length = 3 := by
    rcases hv c1 (by rw [hh]; exact List.mem_cons_self _ _) with ⟨h1a, h1b⟩
    rcases hv c2 (by rw [hh]; simp) with ⟨h2a, h2b⟩
    have e1 := rankStrOf_length h1a h1b
    have e2 := rankStrOf_length h2a h2b
    have hsort : sortCardsDesc [c1, c2] = if c1.rank ≥ c2.rank then [c1, c2] else [c2, c1] := by
      simp [sortCardsDesc, List.insertionSort, List.orderedInsert]
    have hs1 : ("s" : String).length = 1 := rfl
    have ho1 : ("o" : String).length = 1 := rfl
    simp only [getHandString, hh, hsort]
    split_ifs <;> simp only [] <;> split_ifs <;>
      simp [String.length_append, e1, e2, hs1, ho1]
  have hdash : ∀ tok : String, tok.length = 5 ∨ tok.length = 7 →
      (tok.length == 2) = false → pyEndsWith tok "+" = false →
      tokenMatches (getHandString p) c1 c2 tok = false := by
    intro tok hlen h2 hplus
    simp only [tokenMatches, h2, hplus, Bool.false_eq_true, if_false]
    rw [beq_eq_false_iff_ne]
    intro heq
    have hle := congrArg String.length heq
    rcases hts with h | h <;> rcases hlen with h5 | h5 <;> omega
  have hd1 := hdash "22-99" (Or.inl rfl) (by decide) (by decide)
  have hd2 := hdash "22-88" (Or.inl rfl) (by decide) (by decide)
  have hd3 := hdash "22-77" (Or.inl rfl) (by decide) (by decide)
  have hd4 := hdash "A2s-A7s" (Or.inr rfl) (by decide) (by decide)
  have hd5 := hdash "A2s-ATs" (Or.inr rfl) (by decide) (by decide)
  have hany : ∀ l : List String,
      isInRange p l = l.any (tokenMatches (getHandString p) c1 c2) := by
    intro l
    simp only [isInRange, hh]
  refine ⟨?_, hany, ?_⟩
  · intro tok htok
    fin_cases htok
    · exact hd1
    · exact hd2
    · exact hd3
    · exact hd4
    · exact hd5
  · intro pos hpos
    fin_cases hpos
    · rw [show (preflopRanges "EARLY").callRange = ["22-99", "AJs", "ATs", "KQs"] from rfl,
        show (["22-99", "AJs", "ATs", "KQs"] : List String).filter
            (fun t => !(t.data.contains '-')) = ["AJs", "ATs", "KQs"] from rfl,
        hany, hany]
      simp [hd1]
    · rw [show (preflopRanges "MIDDLE").callRange = ["22-88", "A9s", "KTs", "QTs"] from rfl,
        show (["22-88", "A9s", "KTs", "QTs"] : List String).filter
            (fun t => !(t.data.contains '-')) = ["A9s", "KTs", "QTs"] from rfl,
        hany, hany]
      simp [hd2]
    · rw [show (preflopRanges "LATE").callRange = ["22-77", "A2s-A7s", "JTs", "QTs"] from rfl,
        show (["22-77", "A2s-A7s", "JTs", "QTs"] : List String).filter
            (fun t => !(t.data.contains '-')) = ["JTs", "QTs"] from rfl,
        hany, hany]
      simp [hd3, hd4]
    · rw [show (preflopRanges "BLINDS").callRange = ["22-88", "A2s-ATs", "KJs+", "QTs+"] from rfl,
        show (["22-88", "A2s-ATs", "KJs+", "QTs+"] : List String).filter
            (fun t => !(t.data.contains '-')) = ["KJs+", "QTs+"] from rfl,
        hany, hany]
      simp [hd2, hd5]

/-- Witness for C10 at the hole cards 9h 5d. -/
theorem C10_dash_tokens_inert_witness :
    ((holdingPlayer (mkCard 9 "h") (mkCard 5 "d")).hand = [mkCard 9 "h", mkCard 5 "d"] ∧
      (∀ c ∈ (holdingPlayer (mkCard 9 "h") (mkCard 5 "d")).hand, 2 ≤ c.rank ∧ c.rank ≤ 14)) ∧
    (∀ tok ∈ configDashTokens,
        tokenMatches (getHandString (holdingPlayer (mkCard 9 "h") (mkCard 5 "d")))
          (mkCard 9 "h") (mkCard 5 "d") tok = false) :=
  ⟨⟨rfl, by decide⟩,
    (C10_dash_tokens_inert (holdingPlayer (mkCard 9 "h") (mkCard 5 "d"))
      (mkCard 9 "h") (mkCard 5 "d") rfl (by decide)).1⟩

/-! ### C8: raise amounts are clamped -/

/-- C8: whenever get_action returns a RAISE and the round state has
min_raise at most max_raise, the returned amount lies in the inclusive
interval [min_raise, max_raise], on every code path. -/
theorem C8_raise_clamped (p : GTOPlayer) (rs : RoundStateClient) (q : ℚ) (amt : Int)
    (hminmax : rs.min_raise ≤ rs.max_raise)
    (h : getAction p rs q = (PokerAction.RAISE, amt)) :
    rs.min_raise ≤ amt ∧ amt ≤ rs.max_raise := by
  have hclamp : ∀ x : Int, rs.min_raise ≤ max rs.min_raise (min x rs.max_raise) ∧
      max rs.min_raise (min x rs.max_raise) ≤ rs.max_raise := fun x =>
    ⟨le_max_left _ _, max_le hminmax (min_le_right _ _)⟩
  simp only [getAction, getPreflopAction, makeBet, makeRaise] at h
  split_ifs at h <;> rw [Prod.mk.injEq] at h <;> obtain ⟨h1, h2⟩ := h <;>
    first
      | exact absurd h1 (by decide)
      | (subst h2; exact hclamp _)

/-- Witness for C8 on the pre-flop 3-bet path: pocket aces facing a raise,
target 3 times the current bet, clamped inside [5, 100]. -/
theorem C8_raise_clamped_witness :
    ((5 : Int) ≤ (100 : Int) ∧
      getAction
          { id := 0, hand := [mkCard 14 "h", mkCard 14 "d"], is_preflop_aggressor := false,
            all_player_ids := [] }
          { round := "Preflop", current_bet := 10, player_bets := [], pot := 0, min_raise := 5,
            max_raise := 100, community_cards := [], player_actions := [("1", "Raise")],
            big_blind_player_id := 0 }
          0 = (PokerAction.RAISE, 30)) ∧
    (5 : Int) ≤ 30 ∧ (30 : Int) ≤ 100 :=
  ⟨⟨by decide, by decide⟩,
    C8_raise_clamped
      { id := 0, hand := [mkCard 14 "h", mkCard 14 "d"], is_preflop_aggressor := false,
        all_player_ids := [] }
      { round := "Preflop", current_bet := 10, player_bets := [], pot := 0, min_raise := 5,
        max_raise := 100, community_cards := [], player_actions := [("1", "Raise")],
        big_blind_player_id := 0 }
      0 30 (by decide) (by decide)⟩

/-! ### C4: post-flop policy facing a bet -/

/-- C4: post-flop with a positive amount to call (and a nonnegative pot),
get_action implements exactly the claim's cascade: raise toward 1.5 pot
plus the call on a MONSTER, call on at least STRONG_MADE, call on a
STRONG_DRAW whose estimated equity strictly exceeds the pot odds, call on
at least WEAK_MADE when the call is at most half the pot, otherwise fold
with amount 0. -/
theorem C4_facing_bet (p : GTOPlayer) (rs : RoundStateClient) (q : ℚ)
    (hpre : rs.round ≠ "Preflop")
    (hatc : 0 < amountToCall p rs)
    (hpot : 0 ≤ rs.pot) :
    getAction p rs q = specFacingBet p rs := by
  have hatc0 : ¬ amountToCall p rs = 0 := by omega
  have hsum : 0 < rs.pot + amountToCall p rs := by omega
  have hcast : ¬ ((rs.pot : ℚ) + ((amountToCall p rs : Int) : ℚ) = 0) := by
    have hq : (0 : ℚ) < (rs.pot : ℚ) + ((amountToCall p rs : Int) : ℚ) := by
      exact_mod_cast hsum
    intro he
    rw [he] at hq
    exact lt_irrefl 0 hq
  simp only [getAction, specFacingBet]
  rw [if_neg hpre, if_neg hatc0, if_pos hsum, if_neg hcast]
  rw [mul_comm ((rs.pot : ℚ)) ((3 : ℚ) / 2), mul_comm ((rs.pot : ℚ)) ((1 : ℚ) / 2)]
  cases hcat : categorizeHand (evaluate p.hand (rs.community_cards.map Card.ofString)).1
      p.hand (rs.community_cards.map Card.ofString) with
  | MONSTER => simp [makeRaise, HandCategory.value]
  | STRONG_MADE =>
      simp only [HandCategory.value]
      norm_num
      simp
  | MEDIUM_MADE =>
      simp only [HandCategory.value]
      norm_num
      by_cases hT : ((amountToCall p rs : Int) : ℚ) ≤ 1 / 2 * (rs.pot : ℚ) <;> simp [hT]
  | WEAK_MADE =>
      simp only [HandCategory.value]
      norm_num
      by_cases hT : ((amountToCall p rs : Int) : ℚ) ≤ 1 / 2 * (rs.pot : ℚ) <;> simp [hT]
  | STRONG_DRAW =>
      simp only [HandCategory.value]
      norm_num
      by_cases hE : ((amountToCall p rs : Int) : ℚ) / ((rs.pot : ℚ) + ((amountToCall p rs : Int) : ℚ))
          < estimateDrawEquity p (rs.community_cards.map Card.ofString) <;> simp [hE]
  | WEAK_DRAW =>
      simp only [HandCategory.value]
      norm_num
      simp
  | AIR =>
      simp only [HandCategory.value]
      norm_num
      simp

/-- Witness for C4: pocket aces on an A-K-2 flop facing a 10-chip bet into
a 20-chip pot. -/
theorem C4_facing_bet_witness :
    (({ round := "Flop", current_bet := 10, player_bets := [], pot := 20, min_raise := 10,
        max_raise := 200, community_cards := ["Ac", "Kd", "2s"], player_actions := [],
        big_blind_player_id := 0 } : RoundStateClient).round ≠ "Preflop" ∧
      0 < amountToCall (holdingPlayer (mkCard 14 "h") (mkCard 14 "d"))
        { round := "Flop", current_bet := 10, player_bets := [], pot := 20, min_raise := 10,
          max_raise := 200, community_cards := ["Ac", "Kd", "2s"], player_actions := [],
          big_blind_player_id := 0 } ∧
      (0 : Int) ≤ 20) ∧
    getAction (holdingPlayer (mkCard 14 "h") (mkCard 14 "d"))
        { round := "Flop", current_bet := 10, player_bets := [], pot := 20, min_raise := 10,
          max_raise := 200, community_cards := ["Ac", "Kd", "2s"], player_actions := [],
          big_blind_player_id := 0 } 0 =
      specFacingBet (holdingPlayer (mkCard 14 "h") (mkCard 14 "d"))
        { round := "Flop", current_bet := 10, player_bets := [], pot := 20, min_raise := 10,
          max_raise := 200, community_cards := ["Ac", "Kd", "2s"], player_actions := [],
          big_blind_player_id := 0 } :=
  ⟨⟨by decide, by decide, by decide⟩,
    C4_facing_bet _ _ 0 (by decide) (by decide) (by decide)⟩

/-! ### C1: the evaluator picks the best 5-card subset -/

theorem handRank_value_inj : ∀ (a b : HandRank), a.value = b.value → a = b := by
  intro a b
  cases a <;> cases b <;> simp [HandRank.value]

theorem lexGt_cons_iff {a b : Int} {as bs : List Int} :
    lexGt (a :: as) (b :: bs) = true ↔ b < a ∨ (a = b ∧ lexGt as bs = true) := by
  simp [lexGt, Bool.or_eq_true, Bool.and_eq_true, beq_iff_eq, decide_eq_true_eq]

theorem lexGt_trans : ∀ {a b c : List Int},
    lexGt a b = true → lexGt b c = true → lexGt a c = true
  | _ :: _, _ :: _, _ :: _, hab, hbc => by
      rw [lexGt_cons_iff] at hab hbc ⊢
      rcases hab with h1 | ⟨h1, h1b⟩ <;> rcases hbc with h2 | ⟨h2, h2b⟩
      · exact Or.inl (by omega)
      · exact Or.inl (by omega)
      · exact Or.inl (by omega)
      · exact Or.inr ⟨by omega, lexGt_trans h1b h2b⟩
  | _ :: _, _ :: _, [], _, hbc => by simp [lexGt] at hbc
  | _ :: _, [], _, hab, _ => by simp [lexGt] at hab
  | [], _, _, hab, _ => by simp [lexGt] at hab

theorem lexGt_asymm : ∀ {a b : List Int},
    lexGt a b = true → lexGt b a = true → False
  | _ :: as, _ :: bs, hab, hba => by
      rw [lexGt_cons_iff] at hab hba
      rcases hab with h1 | ⟨h1, h1b⟩ <;> rcases hba with h2 | ⟨h2, h2b⟩
      · omega
      · omega
      · omega
      · exact lexGt_asymm h1b h2b
  | _ :: _, [], hab, _ => by simp [lexGt] at hab
  | [], _, hab, _ => by simp [lexGt] at hab

theorem lexGt_trichotomy : ∀ {a b : List Int}, a.length = b.length →
    lexGt a b = true ∨ lexGt b a = true ∨ a = b
  | [], [], _ => Or.inr (Or.inr rfl)
  | a :: as, b :: bs, h => by
      simp only [List.length_cons, Nat.succ.injEq] at h
      rcases lt_trichotomy a b with h1 | h1 | h1
      · exact Or.inr (Or.inl (lexGt_cons_iff.mpr (Or.inl h1)))
      · subst h1
        rcases lexGt_trichotomy (a := as) (b := bs) h with h2 | h2 | h2
        · exact Or.inl (lexGt_cons_iff.mpr (Or.inr ⟨rfl, h2⟩))
        · exact Or.inr (Or.inl (lexGt_cons_iff.mpr (Or.inr ⟨rfl, h2⟩)))
        · exact Or.inr (Or.inr (by rw [h2]))
      · exact Or.inl (lexGt_cons_iff.mpr (Or.inl h1))
  | [], _ :: _, h => by simp at h
  | _ :: _, [], h => by simp at h

theorem scoreGe_iff {x y : HandRank × List Int} : scoreGe x y = true ↔
    y.1.value < x.1.value ∨
      (x.1.value = y.1.value ∧ (x.2 = y.2 ∨ lexGt x.2 y.2 = true)) := by
  unfold scoreGe
  simp [Bool.or_eq_true, Bool.and_eq_true, beq_iff_eq, decide_eq_true_eq]

theorem scoreGe_refl (x : HandRank × List Int) : scoreGe x x = true :=
  scoreGe_iff.mpr (Or.inr ⟨rfl, Or.inl rfl⟩)

theorem scoreGe_trans {x y z : HandRank × List Int}
    (hxy : scoreGe x y = true) (hyz : scoreGe y z = true) : scoreGe x z = true := by
  rw [scoreGe_iff] at hxy hyz ⊢
  rcases hxy with h1 | ⟨h1, h1k⟩ <;> rcases hyz with h2 | ⟨h2, h2k⟩
  · exact Or.inl (by omega)
  · exact Or.inl (by omega)
  · exact Or.inl (by omega)
  · refine Or.inr ⟨by omega, ?_⟩
    rcases h1k with hk1 | hk1 <;> rcases h2k with hk2 | hk2
    · exact Or.inl (hk1.trans hk2)
    · exact Or.inr (hk1 ▸ hk2)
    · exact Or.inr (hk2 ▸ hk1)
    · exact Or.inr (lexGt_trans hk1 hk2)

theorem scoreGe_antisymm {x y : HandRank × List Int}
    (hxy : scoreGe x y = true) (hyx : scoreGe y x = true) : x = y := by
  rw [scoreGe_iff] at hxy hyx
  have hv : x.1.value = y.1.value := by
    rcases hxy with h1 | ⟨h1, -⟩ <;> rcases hyx with h2 | ⟨h2, -⟩ <;> omega
  have hr : x.1 = y.1 := handRank_value_inj _ _ hv
  have hk : x.2 = y.2 := by
    rcases hxy with h1 | ⟨-, hk1⟩
    · omega
    rcases hyx with h2 | ⟨-, hk2⟩
    · omega
    rcases hk1 with hk1 | hk1
    · exact hk1
    rcases hk2 with hk2 | hk2
    · exact hk2.symm
    · exact (lexGt_asymm hk1 hk2).elim
  calc x = (x.1, x.2) := rfl
    _ = (y.1, y.2) := by rw [hr, hk]
    _ = y := rfl

theorem sum_countValues (l : List Int) : (countValues l).sum = l.length := by
  unfold countValues
  rw [← List.sum_toFinset _ (List.nodup_dedup l)]
  rw [show l.dedup.toFinset = l.toFinset from by
    apply Finset.ext
    intro a
    simp [List.mem_toFinset, List.mem_dedup]]
  exact List.sum_toFinset_count_eq_length l

theorem length_le_sum_of_pos : ∀ {t : List Nat}, (∀ x ∈ t, 1 ≤ x) → t.length ≤ t.sum
  | [], _ => by simp
  | a :: t, h => by
      simp only [List.length_cons, List.sum_cons]
      have h1 := h a (List.mem_cons_self _ _)
      have h2 := length_le_sum_of_pos (fun x hx => h x (List.mem_cons_of_mem _ hx))
      omega

theorem counts_case_four {cs : List Nat} (hsum : cs.sum = 5) (hpos : ∀ x ∈ cs, 1 ≤ x)
    (hhead : cs.headD 0 = 4) : cs.length = 2 := by
  match cs, hsum, hhead with
  | [], _, hhead => simp at hhead
  | a :: t, hsum, hhead =>
    simp only [List.headD_cons] at hhead
    subst hhead
    simp only [List.sum_cons] at hsum
    have hle := length_le_sum_of_pos (fun x hx => hpos x (List.mem_cons_of_mem _ hx))
    match t, hsum, hle with
    | [], hsum, _ => simp at hsum
    | [x], _, _ => rfl
    | x :: y :: r, hsum, hle =>
        simp only [List.sum_cons, List.length_cons] at hsum hle
        omega

theorem counts_case_three {cs : List Nat} (hsum : cs.sum = 5) (hpos : ∀ x ∈ cs, 1 ≤ x)
    (hhead : cs.headD 0 = 3) (hne : cs ≠ [3, 2]) : cs.length = 3 := by
  match cs, hsum, hhead, hne with
  | [], _, hhead, _ => simp at hhead
  | a :: t, hsum, hhead, hne =>
    simp only [List.headD_cons] at hhead
    subst hhead
    simp only [List.sum_cons] at hsum
    have hle := length_le_sum_of_pos (fun x hx => hpos x (List.mem_cons_of_mem _ hx))
    match t, hsum, hle, hne with
    | [], hsum, _, _ => simp at hsum
    | [x], hsum, _, hne =>
        simp only [List.sum_cons, List.sum_nil] at hsum
        have hx : x = 2 := by omega
        subst hx
        exact absurd rfl hne
    | [x, y], _, _, _ => rfl
    | x :: y :: z :: r, hsum, hle, _ =>
        simp only [List.sum_cons, List.length_cons] at hsum hle
        omega

theorem counts_case_two {cs : List Nat} (hsum : cs.sum = 5) (hpos : ∀ x ∈ cs, 1 ≤ x)
    (hsorted : cs.Sorted (· ≥ ·)) (hhead : cs.headD 0 = 2) (hne : cs ≠ [2, 2, 1]) :
    cs.length = 4 := by
  match cs, hsum, hsorted, hhead, hne with
  | [], _, _, hhead, _ => simp at hhead
  | a :: t, hsum, hsorted, hhead, hne =>
    simp only [List.headD_cons] at hhead
    subst hhead
    simp only [List.sum_cons] at hsum
    have hle := length_le_sum_of_pos (fun x hx => hpos x (List.mem_cons_of_mem _ hx))
    have hbound : ∀ x ∈ t, x ≤ 2 := fun x hx =>
      (List.sorted_cons.mp hsorted).1 x hx
    match t, hsum, hle, hne, hbound with
    | [], hsum, _, _, _ => simp at hsum
    | [x], hsum, _, _, hbound =>
        have hx2 := hbound x (List.mem_cons_self _ _)
        simp only [List.sum_cons, List.sum_nil] at hsum
        omega
    | [x, y], hsum, _, hne, hbound =>
        have hx2 := hbound x (List.mem_cons_self _ _)
        have hy1 := hpos y (by simp)
        have hx1 := hpos x (by simp)
        simp only [List.sum_cons, List.sum_nil] at hsum
        have hxy : x ≥ y := by
          have := (List.sorted_cons.mp (List.sorted_cons.mp hsorted).2).1 y (by simp)
          exact this
        have hx : x = 2 := by omega
        have hy : y = 1 := by omega
        subst hx
        subst hy
        exact absurd rfl hne
    | [x, y, z], _, _, _, _ => rfl
    | x :: y :: z :: w :: r, hsum, hle, _, hbound =>
        simp only [List.sum_cons, List.length_cons] at hsum hle
        omega

theorem evalFiveCore_kicker_length (ranks0 : List Int) (f : Bool) (h5 : ranks0.length = 5) :
    (evalFiveCore ranks0 f).2.length = kickerLen (evalFiveCore ranks0 f).1 := by
  have hcperm : (sortNatDesc (countValues ranks0)).Perm (countValues ranks0) :=
    List.perm_insertionSort _ _
  have hcsum : (sortNatDesc (countValues ranks0)).sum = 5 := by
    rw [hcperm.sum_eq, sum_countValues, h5]
  have hcpos : ∀ x ∈ sortNatDesc (countValues ranks0), 1 ≤ x := by
    intro x hx
    have hx2 : x ∈ countValues ranks0 := hcperm.mem_iff.mp hx
    rcases List.mem_map.mp hx2 with ⟨r, hr, hrc⟩
    have hmem : r ∈ ranks0 := List.mem_dedup.mp hr
    have hpos : 0 < ranks0.count r := List.count_pos_iff.mpr hmem
    omega
  have hcsorted : (sortNatDesc (countValues ranks0)).Sorted (· ≥ ·) :=
    List.sorted_insertionSort _ _
  have hclen : (sortNatDesc (countValues ranks0)).length = ranks0.dedup.length := by
    rw [hcperm.length_eq]
    exact List.length_map _ _
  have hmlen : (List.insertionSort (mainRel ranks0) ranks0.dedup).length
      = ranks0.dedup.length := (List.perm_insertionSort _ _).length_eq
  simp only [evalFiveCore]
  generalize hR : (if listSetEq ranks0 wheelRanks = true
      then ([5, 4, 3, 2, 1] : List Int) else ranks0) = R
  have hRlen : R.length = 5 := by
    rw [← hR]
    split_ifs <;> simp [h5]
  split_ifs with h1 h2 h3 h4 h5' h6 h7 h8 <;> dsimp only
  · simpa [kickerLen] using hRlen
  · rw [hmlen, ← hclen]
    simpa [kickerLen] using counts_case_four hcsum hcpos h2
  · rw [hmlen, ← hclen, h3]
    rfl
  · simpa [kickerLen] using hRlen
  · simpa [kickerLen] using hRlen
  · rw [hmlen, ← hclen]
    simpa [kickerLen] using counts_case_three hcsum hcpos h6 h3
  · rw [hmlen, ← hclen, h7]
    rfl
  · rw [hmlen, ← hclen]
    simpa [kickerLen] using counts_case_two hcsum hcpos hcsorted h8 h7
  · simpa [kickerLen] using hRlen

theorem evalFiveCore_high_card (ranks0 : List Int) (f : Bool)
    (h : (evalFiveCore ranks0 f).1 = HandRank.HIGH_CARD) :
    (evalFiveCore ranks0 f).2 = ranks0 := by
  revert h
  simp only [evalFiveCore]
  cases hw : listSetEq ranks0 wheelRanks <;> simp only [hw, Bool.false_or, Bool.true_or,
    Bool.true_and, Bool.false_eq_true, if_false, if_true]
  · split_ifs <;> intro h <;> first | exact absurd h (by decide) | rfl
  · split_ifs <;> intro h <;> exact absurd h (by decide)

theorem evalFive_perm {S T : List Card} (h : S.Perm T) : evalFive S = evalFive T := by
  unfold evalFive
  rw [sortIntDesc_eq_of_perm (h.map Card.rank), ((h.map Card.suit).dedup).length_eq]

theorem evalFive_kicker_length {cmb : List Card} (h5 : cmb.length = 5) :
    (evalFive cmb).2.length = kickerLen (evalFive cmb).1 := by
  unfold evalFive
  exact evalFiveCore_kicker_length _ _
    (by rw [(sortIntDesc_perm _).length_eq, List.length_map, h5])

theorem evalFive_high_card {cmb : List Card} (h : (evalFive cmb).1 = HandRank.HIGH_CARD) :
    (evalFive cmb).2 = sortIntDesc (cmb.map Card.rank) := by
  unfold evalFive at h ⊢
  exact evalFiveCore_high_card _ _ h

theorem stepBest_spec (init : HandRank × List Int) (cmb : List Card)
    (hinit : init.2.length = kickerLen init.1) (h5 : cmb.length = 5) :
    (stepBest init cmb = init ∨ stepBest init cmb = evalFive cmb) ∧
    scoreGe (stepBest init cmb) init = true ∧
    scoreGe (stepBest init cmb) (evalFive cmb) = true ∧
    (stepBest init cmb).2.length = kickerLen (stepBest init cmb).1 := by
  have hs := evalFive_kicker_length h5
  simp only [stepBest]
  split_ifs with h1 h2
  · exact ⟨Or.inr rfl, scoreGe_iff.mpr (Or.inl h1), scoreGe_refl _, hs⟩
  · simp only [Bool.and_eq_true, beq_iff_eq] at h2
    obtain ⟨hv, hl⟩ := h2
    have hr1 : (evalFive cmb).1 = init.1 := handRank_value_inj _ _ hv
    have hpair : (init.1, (evalFive cmb).2) = evalFive cmb := by
      rw [← hr1]
    refine ⟨Or.inr hpair, ?_, ?_, ?_⟩
    · rw [hpair]
      exact scoreGe_iff.mpr (Or.inr ⟨hv, Or.inr hl⟩)
    · rw [hpair]
      exact scoreGe_refl _
    · rw [hpair]
      exact hs
  · refine ⟨Or.inl rfl, scoreGe_refl _, ?_, hinit⟩
    rw [scoreGe_iff]
    rcases Nat.lt_trichotomy (evalFive cmb).1.value init.1.value with hlt | heq | hgt
    · exact Or.inl hlt
    · refine Or.inr ⟨heq.symm, ?_⟩
      have hr1 : (evalFive cmb).1 = init.1 := handRank_value_inj _ _ heq
      have hlen_eq : init.2.length = (evalFive cmb).2.length := by
        rw [hinit, hs, hr1]
      rcases lexGt_trichotomy hlen_eq with hgt2 | hgt2 | hgt2
      · exact Or.inr hgt2
      · exact absurd (by simp [heq, hgt2]) h2
      · exact Or.inl hgt2
    · exact absurd hgt h1

theorem foldl_stepBest_spec :
    ∀ (combos : List (List Card)) (init : HandRank × List Int),
      init.2.length = kickerLen init.1 →
      (∀ cmb ∈ combos, cmb.length = 5) →
      (combos.foldl stepBest init = init ∨
          ∃ cmb ∈ combos, combos.foldl stepBest init = evalFive cmb) ∧
        scoreGe (combos.foldl stepBest init) init = true ∧
        (∀ cmb ∈ combos, scoreGe (combos.foldl stepBest init) (evalFive cmb) = true) ∧
        (combos.foldl stepBest init).2.length = kickerLen (combos.foldl stepBest init).1
  | [], init, hinit, _ => ⟨Or.inl rfl, scoreGe_refl _, by simp, hinit⟩
  | cmb :: rest, init, hinit, hall => by
      obtain ⟨hb1, hb2, hb3, hb4⟩ :=
        stepBest_spec init cmb hinit (hall cmb (List.mem_cons_self _ _))
      obtain ⟨hr1, hr2, hr3, hr4⟩ :=
        foldl_stepBest_spec rest (stepBest init cmb) hb4
          (fun c hc => hall c (List.mem_cons_of_mem _ hc))
      rw [List.foldl_cons]
      refine ⟨?_, scoreGe_trans hr2 hb2, ?_, hr4⟩
      · rcases hr1 with h | ⟨c, hc, h⟩
        · rcases hb1 with h2 | h2
          · exact Or.inl (h.trans h2)
          · exact Or.inr ⟨cmb, List.mem_cons_self _ _, h.trans h2⟩
        · exact Or.inr ⟨c, List.mem_cons_of_mem _ hc, h⟩
      · intro c hc
        rcases List.mem_cons.mp hc with rfl | hc2
        · exact scoreGe_trans hr2 hb3
        · exact hr3 c hc2

theorem take5_ge_init (ac : List Card) (h5 : 5 ≤ ac.length)
    (hsorted : ac.Sorted (fun a b => a.rank ≥ b.rank)) :
    scoreGe (evalFive (ac.take 5))
      (HandRank.HIGH_CARD, (ac.map Card.rank).take 5) = true := by
  have hmapsorted : (ac.map Card.rank).Sorted (· ≥ ·) :=
    List.Pairwise.map _ (fun _ _ h => h) hsorted
  have htakesorted : ((ac.map Card.rank).take 5).Sorted (· ≥ ·) :=
    hmapsorted.sublist (List.take_sublist _ _)
  have hranks0 : sortIntDesc ((ac.take 5).map Card.rank) = (ac.map Card.rank).take 5 := by
    rw [List.map_take]
    exact sortIntDesc_eq_self htakesorted
  rw [scoreGe_iff]
  rcases Nat.eq_zero_or_pos (evalFive (ac.take 5)).1.value with hz | hpos
  · have hr : (evalFive (ac.take 5)).1 = HandRank.HIGH_CARD :=
      handRank_value_inj _ _ (by rw [hz]; rfl)
    refine Or.inr ⟨?_, Or.inl ?_⟩
    · rw [hr]
    · rw [evalFive_high_card hr, hranks0]
  · exact Or.inl (by simpa [HandRank.value] using hpos)

/-- C1: with at least five combined cards, HandEvaluator.evaluate returns
a (rank, kickers) score that is greater than or equal to the five-card
score of every 5-card subset of the combined cards under the
rank-ordinal-then-lexicographic-kickers order, and the returned score is
achieved exactly by some 5-card subset. -/
theorem C1_evaluate_best (hand community : List Card)
    (hh : hand.length = 2) (h5 : 5 ≤ (hand ++ community).length) :
    (∀ S : List Card, S.Subperm (hand ++ community) → S.length = 5 →
        scoreGe (evaluate hand community) (evalFive S) = true) ∧
    ∃ S : List Card, S.Subperm (hand ++ community) ∧ S.length = 5 ∧
        evaluate hand community = evalFive S := by
  set ac := sortCardsDesc (hand ++ community) with hac
  have hacperm : ac.Perm (hand ++ community) := List.perm_insertionSort _ _
  have hacsorted : ac.Sorted (fun a b => a.rank ≥ b.rank) := List.sorted_insertionSort _ _
  have haclen : ac.length = (hand ++ community).length := hacperm.length_eq
  have hlen5 : ¬ ac.length < 5 := by omega
  have heval : evaluate hand community =
      (List.sublistsLen 5 ac).foldl stepBest
        (HandRank.HIGH_CARD, (ac.map Card.rank).take 5) := by
    unfold evaluate
    rw [← hac, if_neg hlen5]
  have hinitlen : ((HandRank.HIGH_CARD, (ac.map Card.rank).take 5) :
      HandRank × List Int).2.length = kickerLen HandRank.HIGH_CARD := by
    simp only [kickerLen]
    rw [List.length_take, List.length_map]
    omega
  obtain ⟨hex, hge_init, hge_all, hreslen⟩ :=
    foldl_stepBest_spec (List.sublistsLen 5 ac)
      (HandRank.HIGH_CARD, (ac.map Card.rank).take 5)
      hinitlen
      (fun cmb hc => (List.mem_sublistsLen.mp hc).2)
  constructor
  · intro S hsub hS5
    have hsub2 : S.Subperm ac := hsub.trans hacperm.symm.subperm
    obtain ⟨l, hl1, hl2⟩ := hsub2
    have hllen : l.length = 5 := hl1.length_eq.trans hS5
    have hlmem : l ∈ List.sublistsLen 5 ac := List.mem_sublistsLen.mpr ⟨hl2, hllen⟩
    have := hge_all l hlmem
    rw [heval, evalFive_perm hl1.symm]
    exact this
  · rcases hex with hres | ⟨cmb, hcm, hres⟩
    · -- the fold never improved on the initial score; the top-5 subset achieves it
      have hc0 : ac.take 5 ∈ List.sublistsLen 5 ac :=
        List.mem_sublistsLen.mpr ⟨List.take_sublist _ _, by rw [List.length_take]; omega⟩
      have h1 := hge_all (ac.take 5) hc0
      have h2 := take5_ge_init ac (by omega) hacsorted
      rw [hres] at h1
      have hres2 : (HandRank.HIGH_CARD, (ac.map Card.rank).take 5) = evalFive (ac.take 5) :=
        scoreGe_antisymm (scoreGe_trans (scoreGe_refl _) h2)
          (scoreGe_trans (scoreGe_refl _) h1) |>.symm
      refine ⟨ac.take 5, ?_, ?_, ?_⟩
      · exact ((List.take_sublist _ _).subperm).trans hacperm.subperm
      · rw [List.length_take]; omega
      · rw [heval, hres, hres2]
    · refine ⟨cmb, ?_, (List.mem_sublistsLen.mp hcm).2, ?_⟩
      · exact (((List.mem_sublistsLen.mp hcm).1).subperm).trans hacperm.subperm
      · rw [heval, hres]

/-- Witness for C1 at a concrete 2-card hand and 3-card board. -/
theorem C1_evaluate_best_witness :
    (([mkCard 14 "h", mkCard 14 "d"] : List Card).length = 2 ∧
      5 ≤ (([mkCard 14 "h", mkCard 14 "d"] : List Card) ++
        [mkCard 14 "c", mkCard 13 "d", mkCard 2 "s"]).length) ∧
    ((∀ S : List Card,
        S.Subperm ([mkCard 14 "h", mkCard 14 "d"] ++ [mkCard 14 "c", mkCard 13 "d", mkCard 2 "s"]) →
        S.length = 5 →
        scoreGe (evaluate [mkCard 14 "h", mkCard 14 "d"] [mkCard 14 "c", mkCard 13 "d", mkCard 2 "s"])
          (evalFive S) = true) ∧
      ∃ S : List Card,
        S.Subperm ([mkCard 14 "h", mkCard 14 "d"] ++ [mkCard 14 "c", mkCard 13 "d", mkCard 2 "s"]) ∧
        S.length = 5 ∧
        evaluate [mkCard 14 "h", mkCard 14 "d"] [mkCard 14 "c", mkCard 13 "d", mkCard 2 "s"]
          = evalFive S) :=
  ⟨⟨by decide, by decide⟩, C1_evaluate_best _ _ (by decide) (by decide)⟩

end Goat
